import Mathlib

/-!
Verification of the IntelliVault document-intelligence pipeline.

Each definition below is a shallow embedding of a function of the
IntelliVault repository (TypeScript).  Text is modelled as `List Char`
(JavaScript `string.slice`, `length`, concatenation become `List.drop`,
`List.take`, `List.length`, `++`); machine floats only occur as exact
decimal fractions here and are modelled as `ℚ`; fallible operations
return `Except`/`Option`.  The source location of every embedded
function is given in its doc comment.
-/

namespace IntelliVault

/-- The body of `ChunkingService.chunkText`'s
`while (start < text.length)` loop, embedded with explicit fuel: one unit of
fuel is one loop iteration, and `none` means the fuel ran out before the
loop finished.  Per iteration: `end = Math.min(text.length, start + maxSize)`,
`chunk = text.slice(start, end)` is pushed, the loop breaks when
`end === text.length`, otherwise `start = Math.max(0, end - overlap)`
(truncated subtraction on `ℕ` is exactly `Math.max(0, _)`). -/
def chunkLoop (text : List Char) (maxSize overlap : Nat) :
    Nat → Nat → Option (List (List Char))
  | 0, start => if start < text.length then none else some []
  | fuel + 1, start =>
    if start < text.length then
      let e := min text.length (start + maxSize)
      let chunk := (text.drop start).take (e - start)
      if e = text.length then some [chunk]
      else Option.map (fun rest => chunk :: rest)
        (chunkLoop text maxSize overlap fuel (e - overlap))
    else some []

/-- Function `ChunkingService.chunkText`: returns `[]` for empty text, otherwise runs
the chunking loop.  `text.length` units of fuel always suffice when
`overlap < maxSize` (proved below), so the `getD []` default is never taken
for valid parameters. -/
def chunkText (text : List Char) (maxSize overlap : Nat) : List (List Char) :=
  if text.length = 0 then []
  else (chunkLoop text maxSize overlap text.length 0).getD []

/-- Reassembly of a chunk sequence as described by the spec: concatenate the
chunks after removing the first `overlap` characters of every chunk except
the first. -/
def reassemble (overlap : Nat) : List (List Char) → List Char
  | [] => []
  | c :: rest => c ++ (rest.map (List.drop overlap)).flatten

/-- The loop's position update, `start = Math.max(0, end - overlapTokens)`
with `end = Math.min(text.length, start + maxTokensPerChunk)`
(`ChunkingService.chunkText`); truncated `ℕ` subtraction is `Math.max(0, _)`. -/
def nextStart (text : List Char) (maxSize overlap start : Nat) : Nat :=
  min text.length (start + maxSize) - overlap

/-- The hash loop of `EmbeddingService.fakeEmbedding`:
`hash = (hash * 31 + text.charCodeAt(i)) >>> 0`, i.e. arithmetic modulo
`2^32` (the unsigned right shift by 0 truncates to a 32-bit unsigned
integer). -/
def fakeHash (text : List Char) : Nat :=
  text.foldl (fun h c => (h * 31 + c.toNat) % 2 ^ 32) 0

/-- Function `EmbeddingService.fakeEmbedding`: a length-1536 array with
`arr[i] = ((hash + i) % 1000) / 1000`, the exact decimal fractions modelled
in `ℚ`. -/
def fakeEmbedding (text : List Char) : List ℚ :=
  (List.range 1536).map (fun i => (((fakeHash text + i) % 1000 : ℕ) : ℚ) / 1000)

/-- Function `EmbeddingService.embed`: `texts.map((t) => this.fakeEmbedding(t))`. -/
def embed (texts : List (List Char)) : List (List ℚ) :=
  texts.map fakeEmbedding

/-- Function `OpenAIService.generateEmbeddings`: sends `input` to the provider and
returns `response.data.map(item => item.embedding)`; the provider API
contract returns one embedding per input, in input order, so the call is
the map of the provider's per-text vector function (the parameter). -/
def generateEmbeddings (provider : List Char → List ℚ)
    (input : List (List Char)) : List (List ℚ) :=
  input.map provider

/-- The loop of `OpenAIService.batchEmbeddings`
(`for (i = 0; i < texts.length; i += batchSize)`), embedded with explicit
fuel (one unit per iteration, `none` = fuel exhausted — with
`batchSize = 0` the loop never advances); each iteration embeds
`texts.slice(i, i + batchSize)` and appends the results in order. -/
def batchLoop (provider : List Char → List ℚ) (batchSize : Nat) :
    Nat → List (List Char) → Option (List (List ℚ))
  | _, [] => some []
  | 0, _ :: _ => none
  | fuel + 1, t :: ts =>
    Option.map (fun rest => generateEmbeddings provider ((t :: ts).take batchSize) ++ rest)
      (batchLoop provider batchSize fuel ((t :: ts).drop batchSize))

/-- Function `OpenAIService.batchEmbeddings`: runs the batch loop; `texts.length`
iterations always suffice when `batchSize ≥ 1`. -/
def batchEmbeddings (provider : List Char → List ℚ) (batchSize : Nat)
    (texts : List (List Char)) : Option (List (List ℚ)) :=
  batchLoop provider batchSize texts.length texts

/-- The `SearchDocument` shape indexed by `AISearchService`
(backend `lib/ai-search`): `id`, `tenant_id`, `document_id`, `chunk_index`,
`content`, `filename`, `embedding`. -/
structure SearchDocument where
  id : String
  tenant_id : String
  document_id : String
  chunk_index : Nat
  content : List Char
  filename : String
  embedding : List ℚ
deriving DecidableEq

/-- The projected row `AISearchService.search` pushes for each hit
(`select: [document_id, chunk_index, content, filename]`; the relevance
score and highlight come from the external service and carry no tenant
data). -/
structure AISearchResult where
  documentId : String
  chunkIndex : Nat
  content : List Char
  filename : String
deriving DecidableEq

/-- The index entries satisfying the OData filter
`tenant_id eq '<tenantId>'` that `AISearchService.search`, `vectorSearch`
and `hybridSearch` all pass to the external search client: the client
returns hits only from this filtered set. -/
def aiSearchMatches (index : List SearchDocument) (tenantId : String) :
    List SearchDocument :=
  index.filter (fun d => d.tenant_id == tenantId)

/-- Projection of a hit into the returned row (`results.push` in
`AISearchService.search`). -/
def aiSearchProject (d : SearchDocument) : AISearchResult :=
  { documentId := d.document_id, chunkIndex := d.chunk_index,
    content := d.content, filename := d.filename }

/-- Function `AISearchService.search` against an index state: the external client
applies the tenant filter, returns at most `top: k` hits (ranking order is
the service's), and each hit is projected to the selected fields. -/
def aiSearch (index : List SearchDocument) (tenantId : String) (k : Nat) :
    List AISearchResult :=
  ((aiSearchMatches index tenantId).take k).map aiSearchProject

/-- Result rows of the `SearchService.semanticSearch` stub
(backend `services/SearchService.ts`). -/
structure SemanticSearchResult where
  documentId : String
  chunkIndex : Nat
  score : ℚ
  text : List Char
deriving DecidableEq

/-- Function `SearchService.semanticSearch`: the stub returns `[]` when the query is
empty or `k <= 0`, and `[]` otherwise (integration not implemented). -/
def semanticSearch (query : List Char) (k : Int) : List SemanticSearchResult :=
  if query.isEmpty || k ≤ 0 then [] else []

/-- A citation of `QAService`'s `QAAnswer`
(`{documentId, chunkIndex, snippet}`). -/
structure Citation where
  documentId : String
  chunkIndex : Nat
  snippet : List Char
deriving DecidableEq

/-- The `QAAnswer` result type (backend `services/QAService.ts`). -/
structure QAAnswer where
  answer : List Char
  citations : List Citation
deriving DecidableEq

/-- Function `QAService.answer`: the stub returns an empty answer with no citations
(`return { answer: "", citations: [] }`). -/
def qaAnswer (_question : List Char) : QAAnswer :=
  { answer := [], citations := [] }

/-- A tenant-`A` index entry, for the C3 witness. -/
def sampleDocA : SearchDocument :=
  { id := "a-0", tenant_id := "A", document_id := "a", chunk_index := 0,
    content := ['x'], filename := "a.txt", embedding := [] }

/-- A tenant-`B` index entry, for the C3 witness. -/
def sampleDocB : SearchDocument :=
  { id := "b-0", tenant_id := "B", document_id := "b", chunk_index := 0,
    content := ['y'], filename := "b.txt", embedding := [] }

/-- The `DocumentStatus` enum (backend `models/Document`): `uploaded`, `processing`,
`ready`, `error`. -/
inductive DocumentStatus where
  | uploaded
  | processing
  | ready
  | error
deriving DecidableEq

/-- The `Document` record (backend `models/Document`,
`DocumentSchema`). -/
structure Document where
  id : String
  tenant_id : String
  filename : String
  mime_type : String
  size_bytes : Nat
  checksum_sha256 : String
  status : DocumentStatus
  language : String
  created_at : String
  updated_at : String
deriving DecidableEq

/-- Function `DocumentService.buildUploadedDocument`: builds a fresh `Document` in
status `uploaded`; the random UUID (`crypto.randomUUID()`) and the current
ISO timestamp are ambient effects, passed in as `freshId` and `nowIso`.
The checksum argument is the caller-computed
`computeChecksumSha256(content)`. -/
def buildUploadedDocument (freshId nowIso tenant filename mime language : String)
    (sizeBytes : Nat) (checksum : String) : Document :=
  { id := freshId, tenant_id := tenant, filename := filename,
    mime_type := mime, size_bytes := sizeBytes, checksum_sha256 := checksum,
    status := DocumentStatus.uploaded, language := language,
    created_at := nowIso, updated_at := nowIso }

/-- Modelled from the spec: the upload route handler is absent from `src/`
(only `DocumentService.computeChecksumSha256` / `buildUploadedDocument` and
the `Document` model exist).  Per §3 and §8 the handler computes the SHA-256
checksum of the uploaded bytes (the hash function is the `sha` parameter,
standing for `computeChecksumSha256`), looks for an existing document of
the same tenant with the same checksum, returns it as a duplicate when
found, and otherwise creates and stores the new `Document`. -/
def uploadDocumentRoute (sha : List Nat → String) (freshId nowIso : String)
    (store : List Document) (tenant filename mime language : String)
    (content : List Nat) : List Document × Document :=
  match store.find? (fun d =>
      d.tenant_id == tenant && d.checksum_sha256 == sha content) with
  | some d => (store, d)
  | none =>
    let doc := buildUploadedDocument freshId nowIso tenant filename mime
      language content.length (sha content)
    (doc :: store, doc)

/-- A chunk record as written by `chunkProcessingWorker` to the
`document_chunks` container: `{ id, document_id, tenant_id, chunk_index,
text, embedding, created_at }`. -/
structure ChunkRecord where
  id : String
  document_id : String
  tenant_id : String
  chunk_index : Nat
  text : List Char
  embedding : List ℚ
  created_at : String
deriving DecidableEq

/-- The chunk id `` `${documentId}-${chunkIndex}` `` built by
`chunkProcessingWorker`. -/
def chunkId (documentId : String) (chunkIndex : Nat) : String :=
  documentId ++ "-" ++ toString chunkIndex

/-- Whether the chunk store holds a record with the given id (the Cosmos
per-id uniqueness check). -/
def hasChunkId (store : List ChunkRecord) (cid : String) : Bool :=
  store.any (fun d => d.id == cid)

/-- Function `CosmosRepository.createDocument` on the `document_chunks` container,
i.e. Azure Cosmos `container.items.create`: inserts a new item, and fails
with 409 Conflict when an item with the same `id` already exists — it never
replaces an existing item (the repository's `updateDocument` uses
`items.upsert` instead, but the chunk worker calls `createDocument`). -/
def cosmosCreateChunk (store : List ChunkRecord) (doc : ChunkRecord) :
    Except String (List ChunkRecord) :=
  if hasChunkId store doc.id then Except.error "Conflict"
  else Except.ok (store ++ [doc])

/-- The chunk record `chunkProcessingWorker` builds for index `i` and text
`t` (embedding from `embedF`, standing for
`EmbeddingService.generateEmbedding`, whose implementation is not in
`src/`). -/
def chunkRecordOf (embedF : List Char → List ℚ) (now : String)
    (documentId tenantId : String) (chunkIndex : Nat) (text : List Char) :
    ChunkRecord :=
  { id := chunkId documentId chunkIndex, document_id := documentId,
    tenant_id := tenantId, chunk_index := chunkIndex, text := text,
    embedding := embedF text, created_at := now }

/-- One run of the `chunkProcessingWorker` processor: generate the
embedding, build the chunk record with id
`` `${documentId}-${chunkIndex}` `` and `createDocument` it;
`Except.error` is the processor re-throwing the storage conflict. -/
def chunkJobRun (embedF : List Char → List ℚ) (now : String)
    (store : List ChunkRecord) (documentId tenantId : String)
    (chunkIndex : Nat) (text : List Char) : Except String (List ChunkRecord) :=
  cosmosCreateChunk store
    (chunkRecordOf embedF now documentId tenantId chunkIndex text)

/-- All chunk jobs of one document, run to completion in sequence; a job
whose create conflicts throws, which fails only that job — the store is
left unchanged and the sibling jobs still run. -/
def runChunkJobs (embedF : List Char → List ℚ) (now : String)
    (documentId tenantId : String) :
    List (Nat × List Char) → List ChunkRecord → List ChunkRecord
  | [], store => store
  | (i, t) :: rest, store =>
    match chunkJobRun embedF now store documentId tenantId i t with
    | Except.ok s' => runChunkJobs embedF now documentId tenantId rest s'
    | Except.error _ => runChunkJobs embedF now documentId tenantId rest store

/-- The ingest stage for one document: chunk the extracted text
(`ChunkingService.chunkText`) and run one chunk job per `(index, chunk)`
(`chunks.map((chunk, index) => ...)` then `chunkProcessingQueue.addBulk`). -/
def ingestStage (embedF : List Char → List ℚ) (now : String)
    (store : List ChunkRecord) (documentId tenantId : String)
    (text : List Char) (maxSize overlap : Nat) : List ChunkRecord :=
  runChunkJobs embedF now documentId tenantId
    ((chunkText text maxSize overlap).enum) store

/-- The pre-existing chunk record used by the C5 counterexample. -/
def oldChunkRec : ChunkRecord :=
  { id := "d-0", document_id := "d", tenant_id := "t", chunk_index := 0,
    text := ['o', 'l', 'd'], embedding := [], created_at := "t0" }

/-- The `defaultJobOptions` of a BullMQ queue as declared in the worker module:
a maximum attempt count and the base delay of the exponential backoff. -/
structure JobRetryOptions where
  attempts : Nat
  backoffDelayMs : Nat
deriving DecidableEq

/-- Options of `documentIngestionQueue`: `attempts: 3`,
`backoff: { type: exponential, delay: 2000 }`. -/
def documentIngestionJobOptions : JobRetryOptions :=
  { attempts := 3, backoffDelayMs := 2000 }

/-- Options of `chunkProcessingQueue`: `attempts: 3`, exponential delay
1000 ms. -/
def chunkProcessingJobOptions : JobRetryOptions :=
  { attempts := 3, backoffDelayMs := 1000 }

/-- Options of `documentIndexingQueue`: `attempts: 2`, exponential delay
3000 ms. -/
def documentIndexingJobOptions : JobRetryOptions :=
  { attempts := 2, backoffDelayMs := 3000 }

/-- What BullMQ decides for a failed job. -/
inductive RetryDecision where
  | retry (delayMs : Nat)
  | giveUp
deriving DecidableEq

/-- The BullMQ failed-job contract the workers rely on: a job whose
processor throws is retried while `attemptsMade < attempts`, after the
exponential-backoff delay `delay * 2^(attemptsMade - 1)`; once the attempt
budget is exhausted it stays failed (dead-lettered).  The queue applies
this uniformly to every thrown error — nothing in the configuration or the
worker distinguishes a non-transient error class. -/
def bullmqOnFailure (opts : JobRetryOptions) (attemptsMade : Nat) :
    RetryDecision :=
  if attemptsMade < opts.attempts then
    RetryDecision.retry (opts.backoffDelayMs * 2 ^ (attemptsMade - 1))
  else RetryDecision.giveUp

/-- One attempt of the `documentIngestionWorker` processor, as a function
of the text-extraction result (`DocumentService.extractTextContent` is not
in `src/`; its outcome — extracted text, or a thrown error such as an
unsupported media type — is the `extract` argument).  The worker first sets
the document to `processing`; in the `catch` block it sets the document to
`error` and re-throws (`Except.error`), for extraction failures and empty
extraction results alike; on success the document stays `processing` (the
status changes again only in the indexing worker) and the chunk jobs for
`chunkDocument(text, { maxChunkSize: 1000, overlapSize: 200 })` are
enqueued — `chunkDocument` is also absent from `src/` and is modelled by
the repository's own chunking algorithm `chunkText` at the worker's
parameters.  Returns the document status written by the worker and the job
outcome. -/
def documentIngestionWorkerRun (extract : Except String (List Char)) :
    DocumentStatus × Except String Nat :=
  match extract with
  | Except.error e => (DocumentStatus.error, Except.error e)
  | Except.ok text =>
    if text.length = 0 then
      (DocumentStatus.error,
       Except.error "Failed to extract text content from document")
    else
      (DocumentStatus.processing, Except.ok (chunkText text 1000 200).length)

/-- A chunk as retrieved from the search index by the Retrieval-QA engine
(`documentId`, `chunkIndex`, `content`). -/
structure RetrievedChunk where
  documentId : String
  chunkIndex : Nat
  content : List Char
deriving DecidableEq

/-- The explicit no-grounded-answer text of the Retrieval-QA engine. -/
def noGroundedAnswer : List Char :=
  "No grounded answer: no matching content was found.".toList

/-- Modelled from the spec: the Retrieval-QA engine (§4.5) is absent from
`src/` — `QAService.answer` is an unimplemented stub — so the engine's
zero-retrieval guarantee is modelled here: retrieve the top chunks for the
question, and when retrieval returns zero chunks, return the explicit
"no grounded answer" result with no citations instead of invoking the
generation provider (`generate`) at all. -/
def retrievalQAAsk (retrieve : List Char → List RetrievedChunk)
    (generate : List Char → List RetrievedChunk → QAAnswer)
    (question : List Char) : QAAnswer :=
  match retrieve question with
  | [] => { answer := noGroundedAnswer, citations := [] }
  | c :: cs => generate question (c :: cs)

/-- Termination status of one chunk job of a document: still pending, or
terminated with success or permanent failure (retry budget exhausted). -/
inductive ChunkJobPhase where
  | pending
  | succeeded
  | failed
deriving DecidableEq

/-- The pipeline state of one document while it is being ingested: the
phase of each of its chunk jobs, whether its indexing job has been
enqueued, and its `Document.status`. -/
structure PipelineState where
  chunkJobs : List ChunkJobPhase
  indexingEnqueued : Bool
  docStatus : DocumentStatus
deriving DecidableEq

/-- The effect of one run of `documentIndexingWorker` on the document of
an enqueued indexing job: on success (`addDocuments` + status update) the
document transitions to `ready`, on failure the `catch` block sets it to
`error`. -/
def documentIndexingWorkerRun (indexingSucceeds : Bool) (s : PipelineState) :
    PipelineState :=
  if indexingSucceeds then { s with docStatus := DocumentStatus.ready }
  else { s with docStatus := DocumentStatus.error }

/-- Transitions of the per-document pipeline.
`chunkFinish`: a `chunkProcessingWorker` job terminates (success or
permanent failure); chunk jobs may finish in any order.
`enqueueIndexing` — Modelled from the spec: no producer of
`documentIndexingQueue` exists in `src/` (nothing ever calls its `add`);
§4.3 step 4 and §5 specify the missing join: the indexing job is enqueued
only once every chunk job of the document has terminated.
`indexingRun`: `documentIndexingWorker` processes an enqueued indexing
job, with the status effect of `documentIndexingWorkerRun`. -/
inductive PipelineStep : PipelineState → PipelineState → Prop where
  | chunkFinish (s : PipelineState) (i : Nat) (ph : ChunkJobPhase)
      (hpend : s.chunkJobs.get? i = some ChunkJobPhase.pending)
      (hterm : ph ≠ ChunkJobPhase.pending) :
      PipelineStep s { s with chunkJobs := s.chunkJobs.set i ph }
  | enqueueIndexing (s : PipelineState)
      (hall : ∀ j ∈ s.chunkJobs, j ≠ ChunkJobPhase.pending)
      (hnot : s.indexingEnqueued = false) :
      PipelineStep s { s with indexingEnqueued := true }
  | indexingRun (s : PipelineState) (ok : Bool)
      (henq : s.indexingEnqueued = true) :
      PipelineStep s (documentIndexingWorkerRun ok s)

/-- The pipeline state right after `documentIngestionWorker` enqueued the
`n` chunk jobs of a document: all chunk jobs pending, no indexing job,
document `processing`. -/
def initialPipelineState (n : Nat) : PipelineState :=
  { chunkJobs := List.replicate n ChunkJobPhase.pending,
    indexingEnqueued := false, docStatus := DocumentStatus.processing }

/-- One step of the ceiling-division recurrence `⌈a/s⌉ = 1 + ⌈(a-s)/s⌉`
(for `1 ≤ a`), in the `(a + (s-1)) / s` formulation over `ℕ`. -/
theorem ceil_div_step (a s : Nat) (ha : 1 ≤ a) (hs : 1 ≤ s) :
    (a + (s - 1)) / s = 1 + (a - s + (s - 1)) / s := by
  rcases le_or_lt a s with h | h
  · have h1 : a - s = 0 := by omega
    have h2 : a + (s - 1) = (a - 1) + s := by omega
    rw [h1, h2, Nat.add_div_right _ (by omega)]
    have h3 : (a - 1) / s = 0 := Nat.div_eq_of_lt (by omega)
    have h4 : (0 + (s - 1)) / s = 0 := Nat.div_eq_of_lt (by omega)
    omega
  · have h2 : a + (s - 1) = (a - s + (s - 1)) + s := by omega
    rw [h2, Nat.add_div_right _ (by omega)]
    omega

/-- Main structural lemma for the `chunkText` loop.  With fuel at least
`text.length - start` (phrased additively) and `overlap < maxSize`, the loop
run from position `start < text.length` completes and its chunk list `cs`
satisfies: it is non-empty; dropping `overlap` characters from every chunk
and concatenating yields the text from `start + overlap` on; reassembling
(first chunk whole, `overlap` trimmed from the rest) yields the text from
`start` on; the number of chunks obeys the ceiling formula; and the last
chunk is a final window `text.drop d` of size at most `maxSize`. -/
theorem chunkLoop_spec (text : List Char) (maxSize overlap : Nat)
    (hov : overlap < maxSize) :
    ∀ fuel start, text.length ≤ fuel + start → start < text.length →
    ∃ cs, chunkLoop text maxSize overlap fuel start = some cs ∧
      cs ≠ [] ∧
      (cs.map (List.drop overlap)).flatten = text.drop (start + overlap) ∧
      reassemble overlap cs = text.drop start ∧
      cs.length = 1 + (text.length - (start + maxSize) + (maxSize - overlap - 1)) /
        (maxSize - overlap) ∧
      ∃ d, start ≤ d ∧ d < text.length ∧ text.length - d ≤ maxSize ∧
        cs.getLast? = some (text.drop d) := by
  intro fuel
  induction fuel with
  | zero => intro start h1 h2; omega
  | succ fuel ih =>
    intro start h1 h2
    simp only [chunkLoop, if_pos h2]
    by_cases hend : min text.length (start + maxSize) = text.length
    · -- final window: the loop pushes `text.slice(start, text.length)` and breaks
      rw [if_pos hend, hend]
      have htake : (text.drop start).take (text.length - start) = text.drop start := by
        have hlen : (text.drop start).length = text.length - start := List.length_drop ..
        rw [← hlen, List.take_length]
      refine ⟨[text.drop start], by rw [htake], by simp, ?_, ?_, ?_, start, le_rfl, h2, by omega, ?_⟩
      · simp [List.drop_drop, Nat.add_comm]
      · simp [reassemble]
      · have hz : text.length - (start + maxSize) = 0 := by omega
        have h4 : (0 + (maxSize - overlap - 1)) / (maxSize - overlap) =
            0 := Nat.div_eq_of_lt (by omega)
        simp only [List.length_singleton, hz]
        omega
      · simp
    · -- interior window: push `text.slice(start, start + maxSize)` and recurse
      have hlt : start + maxSize < text.length := by omega
      have he : min text.length (start + maxSize) = start + maxSize := by omega
      rw [if_neg hend, he]
      obtain ⟨rest, hrest, hne, hflat, hre, hlen, d, hd1, hd2, hd3, hlast⟩ :=
        ih (start + maxSize - overlap) (by omega) (by omega)
      rw [hrest]
      set chunk := (text.drop start).take (start + maxSize - start) with hchunk
      have hms : start + maxSize - start = maxSize := by omega
      refine ⟨chunk :: rest, rfl, by simp, ?_, ?_, ?_, d, by omega, hd2, hd3, ?_⟩
      · -- trimmed concatenation covers the text from `start + overlap` on
        have hdt : List.drop overlap chunk =
            (text.drop (start + overlap)).take (maxSize - overlap) := by
          rw [hchunk, hms, List.drop_take, List.drop_drop]
        have hrw : start + maxSize - overlap + overlap = start + maxSize := by omega
        have hdd : text.drop (start + maxSize) =
            (text.drop (start + overlap)).drop (maxSize - overlap) := by
          rw [List.drop_drop]
          congr 1
          omega
        simp only [List.map_cons, List.flatten_cons, hflat, hrw, hdt, hdd,
          List.take_append_drop]
      · -- reassembly covers the text from `start` on
        have hrw : start + maxSize - overlap + overlap = start + maxSize := by omega
        have hdd : text.drop (start + maxSize) = (text.drop start).drop maxSize := by
          rw [List.drop_drop]
        have : (rest.map (List.drop overlap)).flatten = text.drop (start + maxSize) := by
          rw [hflat, hrw]
        simp only [reassemble, this, hchunk, hms, hdd, List.take_append_drop]
      · -- chunk count obeys the ceiling recurrence
        have hstep : (text.length - (start + maxSize) + (maxSize - overlap - 1)) /
            (maxSize - overlap) =
            1 + (text.length - (start + maxSize) - (maxSize - overlap) +
              (maxSize - overlap - 1)) / (maxSize - overlap) :=
          ceil_div_step _ _ (by omega) (by omega)
        have harg : text.length - (start + maxSize - overlap + maxSize) =
            text.length - (start + maxSize) - (maxSize - overlap) := by omega
        simp only [List.length_cons, hlen, harg]
        omega
      · -- the last chunk of the recursive call stays last
        cases rest with
        | nil => exact absurd rfl hne
        | cons r rs => rw [List.getLast?_cons_cons]; exact hlast

/-- For non-empty text and `overlap < maxSize`, `chunkText` equals the loop
run with fuel `text.length`, which completes; packaging of `chunkLoop_spec`
at `start = 0`. -/
theorem chunkText_spec (text : List Char) (maxSize overlap : Nat)
    (hov : overlap < maxSize) (hne : 0 < text.length) :
    chunkText text maxSize overlap ≠ [] ∧
    reassemble overlap (chunkText text maxSize overlap) = text ∧
    (chunkText text maxSize overlap).length =
      1 + (text.length - maxSize + (maxSize - overlap - 1)) / (maxSize - overlap) ∧
    ∃ d, d < text.length ∧ text.length - d ≤ maxSize ∧
      (chunkText text maxSize overlap).getLast? = some (text.drop d) := by
  obtain ⟨cs, hcs, hcne, _hflat, hre, hlen, d, _hd0, hd2, hd3, hlast⟩ :=
    chunkLoop_spec text maxSize overlap hov text.length 0 (by omega) hne
  have hct : chunkText text maxSize overlap = cs := by
    rw [chunkText, if_neg (by omega), hcs]
    rfl
  rw [hct]
  exact ⟨hcne, by simpa using hre, by simpa using hlen, d, hd2, hd3, hlast⟩

/-- The ceiling of `a / b` over `ℚ` (for naturals `a`, `b` with `0 < b`)
equals the natural-number ceiling division `(a + b - 1) / b`. -/
theorem ceil_natCast_div (a b : Nat) (hb : 0 < b) :
    ⌈(a : ℚ) / (b : ℚ)⌉ = ((a + b - 1) / b : ℕ) := by
  have hbq : (0 : ℚ) < (b : ℚ) := by exact_mod_cast hb
  rcases Nat.eq_zero_or_pos a with rfl | ha
  · have hz : (0 + b - 1) / b = 0 := Nat.div_eq_of_lt (by omega)
    rw [hz]
    simp
  · set q := (a + b - 1) / b with hq
    have hmul : q * b ≤ a + b - 1 := Nat.div_mul_le_self _ _
    have hup : a + b - 1 < (q + 1) * b := by
      have := (Nat.div_lt_iff_lt_mul hb).mp (Nat.lt_succ_self ((a + b - 1) / b))
      simpa [hq] using this
    have hle : a ≤ q * b := by
      have hqb : (q + 1) * b = q * b + b := by ring
      omega
    have hlt : q * b < a + b := by omega
    rw [Int.ceil_eq_iff]
    constructor
    · have h1 : ((q : ℚ) - 1) * b < a := by
        have hc : (q : ℚ) * b < (a : ℚ) + b := by exact_mod_cast hlt
        have he : ((q : ℚ) - 1) * b = q * b - b := by ring
        linarith
      calc ((((q : ℕ) : ℤ) : ℚ)) - 1 = ((q : ℚ)) - 1 := by push_cast; ring
        _ < (a : ℚ) / b := by
          rw [lt_div_iff₀ hbq]
          exact h1
    · have h2 : (a : ℚ) ≤ q * b := by exact_mod_cast hle
      calc (a : ℚ) / b ≤ (q : ℚ) := by
            rw [div_le_iff₀ hbq]
            exact h2
        _ = (((q : ℕ) : ℤ) : ℚ) := by push_cast; ring

/-- When `maxTokensPerChunk ≤ overlapTokens` (the unvalidated invalid
parameter region) and the text is longer than one window, the loop never
finishes: it runs out of any amount of fuel. -/
theorem chunkLoop_stuck (t : List Char) (ms ov : Nat) (h1 : 0 < ms)
    (h2 : ms ≤ ov) (h3 : ms < t.length) :
    ∀ fuel, chunkLoop t ms ov fuel 0 = none := by
  intro fuel
  induction fuel with
  | zero =>
    simp only [chunkLoop]
    rw [if_pos (by omega : 0 < t.length)]
  | succ fuel ih =>
    simp only [chunkLoop]
    rw [if_pos (by omega : 0 < t.length)]
    have hmin : min t.length (0 + ms) = ms := by omega
    rw [hmin, if_neg (by omega : ¬ms = t.length)]
    have hz : ms - ov = 0 := by omega
    rw [hz, ih]
    rfl

/-- C1 counterexample.  For the one-character text `"a"` with
`maxTokensPerChunk = 2` and `overlapTokens = 1` (valid parameters:
`0 < 1 < 2`), `chunkText` produces one chunk, but the spec's count formula
`ceil((len(text) - overlap) / (maxSize - overlap)) = ceil((1-1)/(2-1))`
evaluates to `0`. -/
theorem chunk_count_formula_counterexample :
    chunkText ['a'] 2 1 = [['a']] ∧
    (['a'] : List Char).length = 1 ∧
    ⌈(((1 : ℕ) : ℚ) - ((1 : ℕ) : ℚ)) / (((2 : ℕ) : ℚ) - ((1 : ℕ) : ℚ))⌉ = 0 ∧
    ((chunkText ['a'] 2 1).length : ℤ) ≠
      ⌈(((1 : ℕ) : ℚ) - ((1 : ℕ) : ℚ)) / (((2 : ℕ) : ℚ) - ((1 : ℕ) : ℚ))⌉ := by
  have h : chunkText ['a'] 2 1 = [['a']] := by decide
  refine ⟨h, by decide, by norm_num, ?_⟩
  rw [h]
  norm_num

/-- C1 (amended).  For every text and valid parameters
(`0 < overlap < maxSize`): concatenating the chunks with the first
`overlap` characters of every chunk after the first removed reconstructs
the text exactly; the chunk count equals
`ceil((len - overlap) / (maxSize - overlap))` whenever `len > overlap`;
and a non-empty text with `len ≤ overlap` yields exactly one chunk
(where the spec's formula would give a non-positive count). -/
theorem chunk_roundtrip_and_count (text : List Char) (maxSize overlap : Nat)
    (_hpos : 0 < overlap) (hov : overlap < maxSize) :
    reassemble overlap (chunkText text maxSize overlap) = text ∧
    (overlap < text.length →
      ((chunkText text maxSize overlap).length : ℤ) =
        ⌈((text.length : ℚ) - (overlap : ℚ)) / ((maxSize : ℚ) - (overlap : ℚ))⌉) ∧
    (0 < text.length → text.length ≤ overlap →
      (chunkText text maxSize overlap).length = 1) := by
  by_cases h0 : text.length = 0
  · have ht : text = [] := List.length_eq_zero.mp h0
    subst ht
    refine ⟨by simp [chunkText, reassemble], by simp, by simp⟩
  · have hne : 0 < text.length := by omega
    obtain ⟨_, hre, hlen, _⟩ := chunkText_spec text maxSize overlap hov hne
    refine ⟨hre, ?_, ?_⟩
    · intro hol
      have hs : 0 < maxSize - overlap := by omega
      have hnat : 1 + (text.length - maxSize + (maxSize - overlap - 1)) /
          (maxSize - overlap) =
          (text.length - overlap + (maxSize - overlap) - 1) / (maxSize - overlap) := by
        rcases le_or_lt text.length maxSize with hc | hc
        · have hz : text.length - maxSize = 0 := by omega
          have hd0 : (0 + (maxSize - overlap - 1)) / (maxSize - overlap) = 0 :=
            Nat.div_eq_of_lt (by omega)
          have he : text.length - overlap + (maxSize - overlap) - 1 =
              (text.length - overlap - 1) + (maxSize - overlap) := by omega
          rw [hz, hd0, he, Nat.add_div_right _ hs,
            Nat.div_eq_of_lt (by omega : text.length - overlap - 1 < maxSize - overlap)]
        · have hstep := ceil_div_step (text.length - overlap) (maxSize - overlap)
            (by omega) (by omega)
          have he1 : text.length - overlap + (maxSize - overlap) - 1 =
              text.length - overlap + (maxSize - overlap - 1) := by omega
          have he2 : text.length - overlap - (maxSize - overlap) =
              text.length - maxSize := by omega
          rw [he1, hstep, he2]
      have hcast := ceil_natCast_div (text.length - overlap) (maxSize - overlap) hs
      have hq1 : ((text.length - overlap : ℕ) : ℚ) =
          (text.length : ℚ) - (overlap : ℚ) :=
        Nat.cast_sub (by omega : overlap ≤ text.length)
      have hq2 : ((maxSize - overlap : ℕ) : ℚ) =
          (maxSize : ℚ) - (overlap : ℚ) :=
        Nat.cast_sub (by omega : overlap ≤ maxSize)
      rw [hlen, ← hq1, ← hq2, hcast]
      exact_mod_cast hnat
    · intro _ h2
      have hz : text.length - maxSize = 0 := by omega
      have hd0 : (0 + (maxSize - overlap - 1)) / (maxSize - overlap) = 0 :=
        Nat.div_eq_of_lt (by omega)
      rw [hlen, hz]
      omega

/-- C9.  Edge cases of `ChunkingService.chunkText` for every valid
`(maxSize, overlap)`: the empty text produces zero chunks; every non-empty
text of length at most `maxSize` produces exactly one chunk, the whole
text; and for longer text the final window — possibly shorter than
`maxSize` — is still emitted: the chunk list is non-empty and its last
element is the final segment `text.drop d` of length at most `maxSize`,
reaching to the end of the text. -/
theorem chunkText_edge_cases (maxSize overlap : Nat) (_hpos : 0 < maxSize)
    (hov : overlap < maxSize) :
    chunkText [] maxSize overlap = [] ∧
    (∀ text : List Char, 0 < text.length → text.length ≤ maxSize →
      chunkText text maxSize overlap = [text]) ∧
    (∀ text : List Char, maxSize < text.length →
      chunkText text maxSize overlap ≠ [] ∧
      ∃ d, 0 < d ∧ d < text.length ∧ text.length - d ≤ maxSize ∧
        (chunkText text maxSize overlap).getLast? = some (text.drop d)) := by
  refine ⟨by simp [chunkText], ?_, ?_⟩
  · intro text h1 h2
    obtain ⟨_, hre, hlen, _⟩ := chunkText_spec text maxSize overlap hov h1
    have hz : text.length - maxSize = 0 := by omega
    have hd0 : (0 + (maxSize - overlap - 1)) / (maxSize - overlap) = 0 :=
      Nat.div_eq_of_lt (by omega)
    have hone : (chunkText text maxSize overlap).length = 1 := by
      rw [hlen, hz]; omega
    obtain ⟨c, hc⟩ := List.length_eq_one.mp hone
    rw [hc] at hre ⊢
    simp only [reassemble, List.map_nil, List.flatten_nil, List.append_nil] at hre
    rw [hre]
  · intro text hlt
    have h1 : 0 < text.length := by omega
    obtain ⟨hcne, _, _, d, hd2, hd3, hlast⟩ :=
      chunkText_spec text maxSize overlap hov h1
    exact ⟨hcne, d, by omega, hd2, hd3, hlast⟩

/-- C10.  Termination of `chunkText` under `overlapTokens < maxTokensPerChunk`:
the loop's position update advances the start by exactly
`maxSize - overlap ≥ 1` while an interior window remains, so the loop run
with `text.length` units of fuel completes (`some`) and `chunkText` returns
its value; and the precondition is sharp — when `maxSize ≤ overlap` (and the
text exceeds one window) the loop exhausts every amount of fuel. -/
theorem chunkText_terminates (text : List Char) (maxSize overlap : Nat)
    (_hms : 1 ≤ maxSize) (hov : overlap < maxSize) :
    (∀ start, start + maxSize < text.length →
      nextStart text maxSize overlap start = start + (maxSize - overlap) ∧
      start < nextStart text maxSize overlap start) ∧
    (∃ cs, chunkLoop text maxSize overlap text.length 0 = some cs ∧
      chunkText text maxSize overlap = cs) ∧
    (∀ (t : List Char) (ms ov : Nat), 0 < ms → ms ≤ ov → ms < t.length →
      ∀ fuel, chunkLoop t ms ov fuel 0 = none) := by
  refine ⟨?_, ?_, fun t ms ov a b c => chunkLoop_stuck t ms ov a b c⟩
  · intro start hstart
    unfold nextStart
    omega
  · by_cases h0 : text.length = 0
    · refine ⟨[], ?_, by rw [chunkText, if_pos h0]⟩
      have ht : text = [] := List.length_eq_zero.mp h0
      subst ht
      simp [chunkLoop]
    · obtain ⟨cs, hcs, _⟩ :=
        chunkLoop_spec text maxSize overlap hov text.length 0 (by omega) (by omega)
      refine ⟨cs, hcs, ?_⟩
      rw [chunkText, if_neg h0, hcs]
      rfl

/-- Witness for the amended C1 at `text = "abcde"`, `maxSize = 2`,
`overlap = 1`. -/
theorem chunk_roundtrip_and_count_witness :
    (0 : ℕ) < 1 ∧ (1 : ℕ) < 2 ∧
    (reassemble 1 (chunkText ['a','b','c','d','e'] 2 1) = ['a','b','c','d','e'] ∧
     (1 < (['a','b','c','d','e'] : List Char).length →
       ((chunkText ['a','b','c','d','e'] 2 1).length : ℤ) =
         ⌈(((['a','b','c','d','e'] : List Char).length : ℚ) - ((1 : ℕ) : ℚ)) /
           (((2 : ℕ) : ℚ) - ((1 : ℕ) : ℚ))⌉) ∧
     (0 < (['a','b','c','d','e'] : List Char).length →
       (['a','b','c','d','e'] : List Char).length ≤ 1 →
       (chunkText ['a','b','c','d','e'] 2 1).length = 1)) :=
  ⟨by decide, by decide,
    chunk_roundtrip_and_count ['a','b','c','d','e'] 2 1 (by decide) (by decide)⟩

/-- Witness for C9 at `maxSize = 3`, `overlap = 1`. -/
theorem chunkText_edge_cases_witness :
    (0 : ℕ) < 3 ∧ (1 : ℕ) < 3 ∧
    (chunkText [] 3 1 = [] ∧
     (∀ text : List Char, 0 < text.length → text.length ≤ 3 →
       chunkText text 3 1 = [text]) ∧
     (∀ text : List Char, 3 < text.length →
       chunkText text 3 1 ≠ [] ∧
       ∃ d, 0 < d ∧ d < text.length ∧ text.length - d ≤ 3 ∧
         (chunkText text 3 1).getLast? = some (text.drop d))) :=
  ⟨by decide, by decide, chunkText_edge_cases 3 1 (by decide) (by decide)⟩

/-- Witness for C10 at `text = "abc"`, `maxSize = 2`, `overlap = 1`. -/
theorem chunkText_terminates_witness :
    (1 : ℕ) ≤ 2 ∧ (1 : ℕ) < 2 ∧
    ((∀ start, start + 2 < (['a','b','c'] : List Char).length →
       nextStart ['a','b','c'] 2 1 start = start + (2 - 1) ∧
       start < nextStart ['a','b','c'] 2 1 start) ∧
     (∃ cs, chunkLoop ['a','b','c'] 2 1 (['a','b','c'] : List Char).length 0 = some cs ∧
       chunkText ['a','b','c'] 2 1 = cs) ∧
     (∀ (t : List Char) (ms ov : Nat), 0 < ms → ms ≤ ov → ms < t.length →
       ∀ fuel, chunkLoop t ms ov fuel 0 = none)) :=
  ⟨by decide, by decide, chunkText_terminates ['a','b','c'] 2 1 (by decide) (by decide)⟩

/-- The batch loop, with enough fuel and a positive batch size, flattens to
a plain map: batching preserves the one-vector-per-input ordering. -/
theorem batchLoop_eq_map (provider : List Char → List ℚ) (batchSize : Nat)
    (hbs : 1 ≤ batchSize) :
    ∀ fuel (ts : List (List Char)), ts.length ≤ fuel →
      batchLoop provider batchSize fuel ts = some (ts.map provider) := by
  intro fuel
  induction fuel with
  | zero =>
    intro ts hts
    have : ts = [] := List.eq_nil_of_length_eq_zero (by omega)
    subst this
    rfl
  | succ fuel ih =>
    intro ts hts
    cases ts with
    | nil => rfl
    | cons t ts =>
      have hts' : ts.length + 1 ≤ fuel + 1 := by simpa using hts
      have hlen : ((t :: ts).drop batchSize).length ≤ fuel := by
        rw [List.length_drop, List.length_cons]
        omega
      have hrec := ih ((t :: ts).drop batchSize) hlen
      simp only [batchLoop, hrec, Option.map_some']
      rw [generateEmbeddings, ← List.map_append, List.take_append_drop]

/-- C8.  `EmbeddingService.embed` returns exactly one vector per input
text, in input order; every returned vector has dimension 1536; and
`OpenAIService.batchEmbeddings` with any positive batch size preserves the
one-per-input ordering: it equals the plain per-text map. -/
theorem embed_one_per_input (texts : List (List Char))
    (provider : List Char → List ℚ) (batchSize : Nat) (hbs : 1 ≤ batchSize) :
    (embed texts).length = texts.length ∧
    (∀ i (h : i < texts.length), (embed texts)[i]? = some (fakeEmbedding texts[i])) ∧
    (∀ v ∈ embed texts, v.length = 1536) ∧
    batchEmbeddings provider batchSize texts = some (texts.map provider) := by
  refine ⟨by simp [embed], ?_, ?_, ?_⟩
  · intro i h
    simp [embed, List.getElem?_map, List.getElem?_eq_getElem h]
  · intro v hv
    obtain ⟨t, _, rfl⟩ := List.mem_map.mp hv
    simp [fakeEmbedding]
  · exact batchLoop_eq_map provider batchSize hbs texts.length texts le_rfl

/-- Witness for C8 at two concrete texts, `provider = fakeEmbedding`,
`batchSize = 1`. -/
theorem embed_one_per_input_witness :
    (1 : ℕ) ≤ 1 ∧
    ((embed [['a'], ['b']]).length = ([['a'], ['b']] : List (List Char)).length ∧
     (∀ i (h : i < ([['a'], ['b']] : List (List Char)).length),
       (embed [['a'], ['b']])[i]? = some (fakeEmbedding [['a'], ['b']][i])) ∧
     (∀ v ∈ embed [['a'], ['b']], v.length = 1536) ∧
     batchEmbeddings fakeEmbedding 1 [['a'], ['b']] =
       some (([['a'], ['b']] : List (List Char)).map fakeEmbedding)) :=
  ⟨by decide, embed_one_per_input [['a'], ['b']] fakeEmbedding 1 (by decide)⟩

/-- C3.  Tenant isolation: every entry the search path for tenant `a`
draws on passes the `tenant_id eq a` filter, so for any other tenant
`b ≠ a` no returned row originates from an entry of tenant `b`; every
returned row is the projection of an index entry whose `tenant_id` is `a`;
and the stubbed `semanticSearch` / `QAService.answer` paths return no
entries at all. -/
theorem tenant_isolation (index : List SearchDocument) (a b : String)
    (hab : a ≠ b) (k : Nat) (q : List Char) (ki : Int) :
    (∀ d ∈ (aiSearchMatches index a).take k, d.tenant_id = a ∧ d.tenant_id ≠ b) ∧
    (∀ r ∈ aiSearch index a k,
      ∃ d ∈ index, d.tenant_id = a ∧ aiSearchProject d = r) ∧
    semanticSearch q ki = [] ∧
    (qaAnswer q).citations = [] := by
  refine ⟨?_, ?_, by simp [semanticSearch], rfl⟩
  · intro d hd
    have hmem := List.mem_filter.mp (List.mem_of_mem_take hd)
    have heq : d.tenant_id = a := by simpa using hmem.2
    exact ⟨heq, by rw [heq]; exact hab⟩
  · intro r hr
    obtain ⟨d, hd, rfl⟩ := List.mem_map.mp hr
    have hmem := List.mem_filter.mp (List.mem_of_mem_take hd)
    exact ⟨d, hmem.1, by simpa using hmem.2, rfl⟩

/-- Witness for C3 on a two-tenant index. -/
theorem tenant_isolation_witness :
    "A" ≠ "B" ∧
    ((∀ d ∈ (aiSearchMatches [sampleDocA, sampleDocB] "A").take 2,
        d.tenant_id = "A" ∧ d.tenant_id ≠ "B") ∧
     (∀ r ∈ aiSearch [sampleDocA, sampleDocB] "A" 2,
        ∃ d ∈ [sampleDocA, sampleDocB], d.tenant_id = "A" ∧ aiSearchProject d = r) ∧
     semanticSearch ['q'] 5 = [] ∧
     (qaAnswer ['q']).citations = []) :=
  ⟨by decide, tenant_isolation [sampleDocA, sampleDocB] "A" "B" (by decide) 2 ['q'] 5⟩

/-- C4.  Uploading identical bytes twice for the same tenant, starting from
a store with no document of that tenant-and-checksum, yields exactly one
`Document` record: the second upload is detected as a duplicate (store
unchanged, the first document returned), and the checksums computed for the
two uploads are equal. -/
theorem upload_dedup (sha : List Nat → String) (id1 id2 now1 now2 : String)
    (store0 : List Document) (tenant f1 f2 m1 m2 l1 l2 : String)
    (content : List Nat)
    (h0 : ∀ d ∈ store0, ¬(d.tenant_id = tenant ∧ d.checksum_sha256 = sha content)) :
    ∀ s1 d1 s2 d2,
      uploadDocumentRoute sha id1 now1 store0 tenant f1 m1 l1 content = (s1, d1) →
      uploadDocumentRoute sha id2 now2 s1 tenant f2 m2 l2 content = (s2, d2) →
      s2 = s1 ∧ d2 = d1 ∧
      (s2.filter (fun d =>
        d.tenant_id == tenant && d.checksum_sha256 == sha content)).length = 1 ∧
      d1.checksum_sha256 = d2.checksum_sha256 := by
  intro s1 d1 s2 d2 h1 h2
  have hfind0 : store0.find? (fun d =>
      d.tenant_id == tenant && d.checksum_sha256 == sha content) = none := by
    rw [List.find?_eq_none]
    intro d hd
    have := h0 d hd
    simp only [Bool.and_eq_true, beq_iff_eq]
    tauto
  have hbud : uploadDocumentRoute sha id1 now1 store0 tenant f1 m1 l1 content =
      (buildUploadedDocument id1 now1 tenant f1 m1 l1 content.length (sha content)
        :: store0,
       buildUploadedDocument id1 now1 tenant f1 m1 l1 content.length (sha content)) := by
    unfold uploadDocumentRoute
    rw [hfind0]
  rw [hbud] at h1
  obtain ⟨ha, hb⟩ := Prod.mk.inj h1
  subst ha
  subst hb
  have hpos : (fun d => d.tenant_id == tenant && d.checksum_sha256 == sha content)
      (buildUploadedDocument id1 now1 tenant f1 m1 l1 content.length (sha content)) =
      true := by
    simp [buildUploadedDocument]
  have hfind1 : ((buildUploadedDocument id1 now1 tenant f1 m1 l1 content.length
      (sha content)) :: store0).find? (fun d =>
      d.tenant_id == tenant && d.checksum_sha256 == sha content) =
      some (buildUploadedDocument id1 now1 tenant f1 m1 l1 content.length
        (sha content)) :=
    List.find?_cons_of_pos _ hpos
  have hr2 : uploadDocumentRoute sha id2 now2
      ((buildUploadedDocument id1 now1 tenant f1 m1 l1 content.length (sha content))
        :: store0) tenant f2 m2 l2 content =
      ((buildUploadedDocument id1 now1 tenant f1 m1 l1 content.length (sha content))
        :: store0,
       buildUploadedDocument id1 now1 tenant f1 m1 l1 content.length (sha content)) := by
    unfold uploadDocumentRoute
    rw [hfind1]
  rw [hr2] at h2
  obtain ⟨hc, hd⟩ := Prod.mk.inj h2
  subst hc
  subst hd
  refine ⟨rfl, rfl, ?_, rfl⟩
  have hnil : store0.filter (fun d =>
      d.tenant_id == tenant && d.checksum_sha256 == sha content) = [] := by
    rw [List.filter_eq_nil_iff]
    intro d hd
    have := h0 d hd
    simp only [Bool.and_eq_true, beq_iff_eq, not_and]
    tauto
  have hfc : ((buildUploadedDocument id1 now1 tenant f1 m1 l1 content.length
      (sha content)) :: store0).filter (fun d =>
      d.tenant_id == tenant && d.checksum_sha256 == sha content) =
      (buildUploadedDocument id1 now1 tenant f1 m1 l1 content.length (sha content))
        :: store0.filter (fun d =>
          d.tenant_id == tenant && d.checksum_sha256 == sha content) :=
    List.filter_cons_of_pos hpos
  rw [hfc, hnil]
  rfl

/-- Witness for C4: a two-upload run from the empty store. -/
theorem upload_dedup_witness :
    (∀ d ∈ ([] : List Document),
      ¬(d.tenant_id = "T" ∧ d.checksum_sha256 = (fun _ => "deadbeef") [1, 2])) ∧
    (∀ s1 d1 s2 d2,
      uploadDocumentRoute (fun _ => "deadbeef") "i1" "t1" [] "T" "f1" "m" "l" [1, 2] =
        (s1, d1) →
      uploadDocumentRoute (fun _ => "deadbeef") "i2" "t2" s1 "T" "f2" "m" "l" [1, 2] =
        (s2, d2) →
      s2 = s1 ∧ d2 = d1 ∧
      (s2.filter (fun d =>
        d.tenant_id == "T" && d.checksum_sha256 == (fun _ => "deadbeef") [1, 2])).length
        = 1 ∧
      d1.checksum_sha256 = d2.checksum_sha256) :=
  ⟨by simp, upload_dedup (fun _ => "deadbeef") "i1" "i2" "t1" "t2" [] "T" "f1" "f2"
    "m" "m" "l" "l" [1, 2] (by simp)⟩

/-- The id of the built chunk record is the deterministic
`` `${documentId}-${chunkIndex}` ``. -/
theorem chunkRecordOf_id (embedF : List Char → List ℚ) (now : String)
    (documentId tenantId : String) (chunkIndex : Nat) (text : List Char) :
    (chunkRecordOf embedF now documentId tenantId chunkIndex text).id =
      chunkId documentId chunkIndex := rfl

/-- One unfolding of `runChunkJobs` on a cons cell, with the Cosmos create
resolved by the per-id uniqueness check. -/
theorem runChunkJobs_cons (embedF : List Char → List ℚ) (now : String)
    (documentId tenantId : String) (i : Nat) (t : List Char)
    (rest : List (Nat × List Char)) (store : List ChunkRecord) :
    runChunkJobs embedF now documentId tenantId ((i, t) :: rest) store =
      if hasChunkId store (chunkId documentId i) then
        runChunkJobs embedF now documentId tenantId rest store
      else
        runChunkJobs embedF now documentId tenantId rest
          (store ++ [chunkRecordOf embedF now documentId tenantId i t]) := by
  simp only [runChunkJobs, chunkJobRun, cosmosCreateChunk, chunkRecordOf_id]
  by_cases hc : hasChunkId store (chunkId documentId i) = true
  · rw [if_pos hc, if_pos hc]
  · rw [if_neg hc, if_neg hc]

/-- Running chunk jobs never removes an id from the store. -/
theorem runChunkJobs_keeps_id (embedF : List Char → List ℚ) (now : String)
    (documentId tenantId cid : String) :
    ∀ (jobs : List (Nat × List Char)) (store : List ChunkRecord),
      hasChunkId store cid = true →
      hasChunkId (runChunkJobs embedF now documentId tenantId jobs store) cid
        = true := by
  intro jobs
  induction jobs with
  | nil => intro store h; exact h
  | cons p rest ih =>
    intro store h
    obtain ⟨i, t⟩ := p
    rw [runChunkJobs_cons]
    by_cases hc : hasChunkId store (chunkId documentId i) = true
    · rw [if_pos hc]
      exact ih store h
    · rw [if_neg hc]
      refine ih _ ?_
      unfold hasChunkId at h ⊢
      rw [List.any_append, h]
      rfl

/-- After running the chunk jobs of a document, the store holds the id of
every job in the list. -/
theorem runChunkJobs_adds_ids (embedF : List Char → List ℚ) (now : String)
    (documentId tenantId : String) :
    ∀ (jobs : List (Nat × List Char)) (store : List ChunkRecord),
      ∀ p ∈ jobs,
        hasChunkId (runChunkJobs embedF now documentId tenantId jobs store)
          (chunkId documentId p.1) = true := by
  intro jobs
  induction jobs with
  | nil => intro store p hp; exact absurd hp (List.not_mem_nil p)
  | cons q rest ih =>
    intro store p hp
    obtain ⟨i, t⟩ := q
    rw [runChunkJobs_cons]
    rcases List.mem_cons.mp hp with hp | hp
    · subst hp
      by_cases hc : hasChunkId store (chunkId documentId i) = true
      · rw [if_pos hc]
        exact runChunkJobs_keeps_id embedF now documentId tenantId
          (chunkId documentId i) rest store hc
      · rw [if_neg hc]
        refine runChunkJobs_keeps_id embedF now documentId tenantId
          (chunkId documentId i) rest _ ?_
        unfold hasChunkId
        rw [List.any_append]
        simp [chunkRecordOf_id]
    · by_cases hc : hasChunkId store (chunkId documentId i) = true
      · rw [if_pos hc]
        exact ih store p hp
      · rw [if_neg hc]
        exact ih _ p hp

/-- When every job's id is already in the store, running the jobs changes
nothing: every create conflicts. -/
theorem runChunkJobs_noop (embedF : List Char → List ℚ) (now : String)
    (documentId tenantId : String) :
    ∀ (jobs : List (Nat × List Char)) (store : List ChunkRecord),
      (∀ p ∈ jobs, hasChunkId store (chunkId documentId p.1) = true) →
      runChunkJobs embedF now documentId tenantId jobs store = store := by
  intro jobs
  induction jobs with
  | nil => intro store _; rfl
  | cons q rest ih =>
    intro store hall
    obtain ⟨i, t⟩ := q
    have hhead : hasChunkId store (chunkId documentId i) = true :=
      hall (i, t) (List.mem_cons_self _ _)
    rw [runChunkJobs_cons, if_pos hhead]
    exact ih store (fun p hp => hall p (List.mem_cons_of_mem _ hp))

/-- C5 (amended).  Running the ingest stage twice for the same document
changes nothing after the first run: the second run's per-chunk creates all
conflict on the deterministic `` `${documentId}-${chunkIndex}` `` id and
are rejected (rather than overwriting or appending), so the store — and in
particular the set of `(documentId, chunkIndex)` chunk records — is exactly
that of a single run. -/
theorem ingest_idempotent (embedF : List Char → List ℚ) (now1 now2 : String)
    (store : List ChunkRecord) (documentId tenantId : String)
    (text : List Char) (maxSize overlap : Nat) :
    ingestStage embedF now2
      (ingestStage embedF now1 store documentId tenantId text maxSize overlap)
      documentId tenantId text maxSize overlap =
      ingestStage embedF now1 store documentId tenantId text maxSize overlap ∧
    (ingestStage embedF now2
      (ingestStage embedF now1 store documentId tenantId text maxSize overlap)
      documentId tenantId text maxSize overlap).map
        (fun r => (r.document_id, r.chunk_index)) =
      (ingestStage embedF now1 store documentId tenantId text maxSize overlap).map
        (fun r => (r.document_id, r.chunk_index)) := by
  have h : ingestStage embedF now2
      (ingestStage embedF now1 store documentId tenantId text maxSize overlap)
      documentId tenantId text maxSize overlap =
      ingestStage embedF now1 store documentId tenantId text maxSize overlap := by
    unfold ingestStage
    apply runChunkJobs_noop
    intro p hp
    exact runChunkJobs_adds_ids embedF now1 documentId tenantId
      ((chunkText text maxSize overlap).enum) store p hp
  exact ⟨h, by rw [h]⟩

/-- C5 counterexample.  Re-processing chunk `(d, 0)` with new text does
not overwrite the stored record by its `(documentId, chunkIndex)` key: the
create is rejected with a conflict and the old record (text `"old"`, not
the re-computed `"new"`) survives unchanged. -/
theorem ingest_overwrite_counterexample :
    chunkJobRun (fun _ => []) "t1" [oldChunkRec] "d" "t" 0 ['n', 'e', 'w'] =
      Except.error "Conflict" ∧
    runChunkJobs (fun _ => []) "t1" "d" "t" [(0, ['n', 'e', 'w'])] [oldChunkRec] =
      [oldChunkRec] ∧
    oldChunkRec.text = ['o', 'l', 'd'] ∧
    oldChunkRec.text ≠ ['n', 'e', 'w'] := by
  refine ⟨rfl, rfl, rfl, by decide⟩

/-- C6 counterexample.  An ingestion job whose text extraction fails
(e.g. unsupported media type) on its first attempt does set the document to
`error` — but the job IS retried: the queue's uniform `attempts: 3` policy
schedules a retry after the 2000 ms backoff, contradicting the claimed
non-retried non-transient failure class. -/
theorem ingestion_no_retry_counterexample :
    documentIngestionWorkerRun (Except.error "Unsupported media type") =
      (DocumentStatus.error, Except.error "Unsupported media type") ∧
    bullmqOnFailure documentIngestionJobOptions 1 = RetryDecision.retry 2000 ∧
    bullmqOnFailure documentIngestionJobOptions 1 ≠ RetryDecision.giveUp := by
  refine ⟨rfl, by decide, by decide⟩

/-- C6 (amended).  Every failing ingestion attempt — extraction error or
empty extraction result, transient or not — transitions the document to
`error` and re-throws; the queue then retries any failure with exponential
backoff (`2000 * 2^(k-1)` ms after the `k`-th attempt) while fewer than 3
attempts were made, and dead-letters it afterwards: the bounded
backoff-retry policy exists, but no separate never-retried non-transient
class does. -/
theorem ingestion_error_handling (e : String) (k : Nat) :
    documentIngestionWorkerRun (Except.error e) =
      (DocumentStatus.error, Except.error e) ∧
    documentIngestionWorkerRun (Except.ok []) =
      (DocumentStatus.error,
       Except.error "Failed to extract text content from document") ∧
    documentIngestionJobOptions.attempts = 3 ∧
    (k < 3 → bullmqOnFailure documentIngestionJobOptions k =
      RetryDecision.retry (2000 * 2 ^ (k - 1))) ∧
    (3 ≤ k → bullmqOnFailure documentIngestionJobOptions k =
      RetryDecision.giveUp) := by
  refine ⟨rfl, rfl, rfl, ?_, ?_⟩
  · intro h
    simp only [bullmqOnFailure, documentIngestionJobOptions]
    rw [if_pos h]
  · intro h
    simp only [bullmqOnFailure, documentIngestionJobOptions]
    rw [if_neg (by omega)]

/-- Witness for C6 (amended) at error `"x"`, first attempt. -/
theorem ingestion_error_handling_witness :
    (1 : ℕ) < 3 ∧
    bullmqOnFailure documentIngestionJobOptions 1 =
      RetryDecision.retry (2000 * 2 ^ (1 - 1)) :=
  ⟨by decide, (ingestion_error_handling "x" 1).2.2.2.1 (by decide)⟩

/-- C7.  When retrieval returns zero chunks, the Retrieval-QA engine
returns the explicit "no grounded answer" result — the generation provider
is not consulted, whatever it would answer — and the citation list is
empty; the in-repository `QAService.answer` stub likewise never produces a
citation. -/
theorem qa_no_grounded_answer (retrieve : List Char → List RetrievedChunk)
    (generate : List Char → List RetrievedChunk → QAAnswer)
    (q : List Char) (h : retrieve q = []) :
    (retrievalQAAsk retrieve generate q).answer = noGroundedAnswer ∧
    (retrievalQAAsk retrieve generate q).citations = [] ∧
    (∀ q' : List Char, (qaAnswer q').citations = []) := by
  unfold retrievalQAAsk
  rw [h]
  exact ⟨rfl, rfl, fun _ => rfl⟩

/-- Witness for C7: an empty tenant collection (retrieval finds nothing)
with a generation provider that would invent an answer. -/
theorem qa_no_grounded_answer_witness :
    (fun _ : List Char => ([] : List RetrievedChunk)) ['q'] = [] ∧
    ((retrievalQAAsk (fun _ => [])
        (fun _ _ => { answer := ['i', 'n', 'v', 'e', 'n', 't', 'e', 'd'],
                      citations := [] }) ['q']).answer = noGroundedAnswer ∧
     (retrievalQAAsk (fun _ => [])
        (fun _ _ => { answer := ['i', 'n', 'v', 'e', 'n', 't', 'e', 'd'],
                      citations := [] }) ['q']).citations = [] ∧
     (∀ q' : List Char, (qaAnswer q').citations = [])) :=
  ⟨rfl, qa_no_grounded_answer (fun _ => [])
    (fun _ _ => { answer := ['i', 'n', 'v', 'e', 'n', 't', 'e', 'd'],
                  citations := [] }) ['q'] rfl⟩

/-- C2.  In every pipeline state reachable from the post-fan-out state: if
the indexing job has been enqueued (hence before and while it runs), every
chunk job of the document has terminated — none is pending — and when the
enqueued indexing job runs and succeeds, the document's status transitions
to `ready`. -/
theorem indexing_join (n : Nat) (s : PipelineState)
    (hreach : Relation.ReflTransGen PipelineStep (initialPipelineState n) s) :
    (s.indexingEnqueued = true →
      ∀ j ∈ s.chunkJobs, j ≠ ChunkJobPhase.pending) ∧
    (s.indexingEnqueued = true →
      (documentIndexingWorkerRun true s).docStatus = DocumentStatus.ready) := by
  refine ⟨?_, fun _ => rfl⟩
  induction hreach with
  | refl =>
    intro h
    simp [initialPipelineState] at h
  | tail hab hbc ih =>
    rename_i b c
    cases hbc with
    | chunkFinish i ph hpend hterm =>
      intro henq j hj
      have hall := ih henq
      have hpmem : ChunkJobPhase.pending ∈ b.chunkJobs := by
        have := List.get?_eq_some.mp hpend
        obtain ⟨hlt, hget⟩ := this
        exact hget ▸ List.get_mem b.chunkJobs i hlt
      exact absurd rfl (hall ChunkJobPhase.pending hpmem)
    | enqueueIndexing hall hnot =>
      intro _ j hj
      exact hall j hj
    | indexingRun ok henq =>
      intro henqc j hj
      have hcj : (documentIndexingWorkerRun ok b).chunkJobs = b.chunkJobs := by
        unfold documentIndexingWorkerRun
        by_cases hok : ok = true
        · rw [if_pos hok]
        · rw [if_neg hok]
      have henqt : (documentIndexingWorkerRun ok b).indexingEnqueued =
          b.indexingEnqueued := by
        unfold documentIndexingWorkerRun
        by_cases hok : ok = true
        · rw [if_pos hok]
        · rw [if_neg hok]
      exact ih (henqt ▸ henqc) j (hcj ▸ hj)

/-- Witness for C2: a one-chunk document run through the trace
chunk-succeeds, indexing-enqueued. -/
theorem indexing_join_witness :
    ((PipelineState.mk [ChunkJobPhase.succeeded] true
        DocumentStatus.processing).indexingEnqueued = true →
      ∀ j ∈ (PipelineState.mk [ChunkJobPhase.succeeded] true
        DocumentStatus.processing).chunkJobs, j ≠ ChunkJobPhase.pending) ∧
    ((PipelineState.mk [ChunkJobPhase.succeeded] true
        DocumentStatus.processing).indexingEnqueued = true →
      (documentIndexingWorkerRun true (PipelineState.mk
        [ChunkJobPhase.succeeded] true
        DocumentStatus.processing)).docStatus = DocumentStatus.ready) :=
  indexing_join 1
    (PipelineState.mk [ChunkJobPhase.succeeded] true DocumentStatus.processing)
    (Relation.ReflTransGen.tail
      (Relation.ReflTransGen.tail Relation.ReflTransGen.refl
        (PipelineStep.chunkFinish (initialPipelineState 1) 0
          ChunkJobPhase.succeeded rfl (by decide)))
      (PipelineStep.enqueueIndexing
        (PipelineState.mk [ChunkJobPhase.succeeded] false
          DocumentStatus.processing)
        (by decide) rfl))

end IntelliVault

